import Mathlib

/-!
Verification of the single-flight LRU cache in
`src/python3_commons/async_functools.py`.

The embedding models the three wrapper classes (`UncachedLRUAsyncCallable`,
`MemoizedLRUAsyncCallable`, `CachedLRUAsyncCallable`) as one small-step state
machine over a set of logical tasks.  asyncio scheduling is single-threaded and
cooperative: the only suspension points inside `__call__` are the `await` of
the wrapped producer and the `await` of an in-flight future, so each wrapper
method body between suspension points is one atomic step of the machine.
A schedule is the list of task indices chosen by the event loop.

Python dicts and `OrderedDict` are modelled as association lists whose keys
are unique in every reachable state (the dict representation invariant), with
the front of the list being the oldest entry; `popitem(last=False)` removes
the front, `move_to_end` re-appends at the back.
-/

namespace AsyncFunctools

/-! ## KeyBuilder: model of functools._make_key (CPython stdlib), called by
`BaseLRUAsyncCallable._make_key` with `typed=self._typed`. -/

/-- A Python argument value, carrying its runtime type. -/
inductive PyVal
  | vint : Int → PyVal
  | vstr : String → PyVal
  | vbool : Bool → PyVal
deriving DecidableEq, Repr

/-- `type(v).__name__` for the modelled values. -/
def typeName : PyVal → String
  | .vint _ => "int"
  | .vstr _ => "str"
  | .vbool _ => "bool"

/-- Membership in `fasttypes = (int, str)` of `functools._make_key`. -/
def isFastType : PyVal → Bool
  | .vint _ => true
  | .vstr _ => true
  | .vbool _ => false

/-- One element of the flat key tuple built by `_make_key`. -/
inductive KeyElem
  | val : PyVal → KeyElem
  | kwdMark : KeyElem
  | tname : String → KeyElem
deriving DecidableEq, Repr

/-- The key returned by `_make_key`: either the `_HashedSeq` of the flat tuple
or, on the fast path, the bare single argument itself. -/
inductive PyKey
  | hashedSeq : List KeyElem → PyKey
  | bare : PyVal → PyKey
deriving DecidableEq, Repr

/-- The loop `for item in kwds.items(): key += item` of `_make_key`: dict items
are iterated in insertion order, each contributing the name and the value. -/
def kwdItems (kwds : List (String × PyVal)) : List KeyElem :=
  match kwds with
  | [] => []
  | (k, v) :: rest => KeyElem.val (PyVal.vstr k) :: KeyElem.val v :: kwdItems rest

/-- The final `return` of `_make_key` for the untyped case:
`if len(key) == 1 and type(key[0]) in fasttypes: return key[0]`. -/
def finishKey : List KeyElem → PyKey
  | [KeyElem.val v] =>
    if isFastType v then PyKey.bare v else PyKey.hashedSeq [KeyElem.val v]
  | key => PyKey.hashedSeq key

/-- `functools._make_key(args, kwds, typed)`.  `kwds` is the keyword mapping in
its insertion order, as a Python dict iterates it. -/
def makeKey (args : List PyVal) (kwds : List (String × PyVal)) (typed : Bool) : PyKey :=
  let key := args.map KeyElem.val ++
    (if kwds.isEmpty then [] else KeyElem.kwdMark :: kwdItems kwds)
  if typed then
    PyKey.hashedSeq (key ++ args.map (fun v => KeyElem.tname (typeName v)) ++
      (if kwds.isEmpty then [] else kwds.map (fun kv => KeyElem.tname (typeName kv.2))))
  else
    finishKey key

/-! ## Association-list model of dict / OrderedDict -/

/-- `d[k]` lookup. -/
def assocGet {α : Type} : List (Nat × α) → Nat → Option α
  | [], _ => none
  | (a, b) :: d, k => if a = k then some b else assocGet d k

/-- `d.pop(k, None)`: removal of the entry for `k` (keys are unique in every
reachable state, so removing every occurrence equals removing the entry). -/
def assocPop {α : Type} : List (Nat × α) → Nat → List (Nat × α)
  | [], _ => []
  | (a, b) :: d, k => if a = k then assocPop d k else (a, b) :: assocPop d k

/-- `d[k] = v`: update in place when present, append when absent. -/
def assocSet {α : Type} : List (Nat × α) → Nat → α → List (Nat × α)
  | [], k, v => [(k, v)]
  | (a, b) :: d, k, v => if a = k then (k, v) :: d else (a, b) :: assocSet d k v

/-- `OrderedDict.move_to_end(k)` (no-op when `k` is absent; in the source it is
only reached when `k` is present). -/
def moveToEnd (d : List (Nat × Nat)) (k : Nat) : List (Nat × Nat) :=
  match assocGet d k with
  | some v => assocPop d k ++ [(k, v)]
  | none => d

/-! ## The cache state machine -/

/-- Result of one producer invocation: a returned value or a raised exception. -/
inductive Outcome
  | ok : Nat → Outcome
  | err : Nat → Outcome
deriving DecidableEq, Repr

/-- State of an `asyncio.Future`. -/
inductive FutState
  | pending : FutState
  | resolved : Nat → FutState
  | failed : Nat → FutState
deriving DecidableEq, Repr

/-- Program point of one logical task inside `__call__`:
`start k` is about to run the prologue for key `k`; `awaitingFut fid` is
suspended on an in-flight future; `runningProd k fid inv` is suspended on the
producer (invocation number `inv`, owning future `fid`); `done r` returned. -/
inductive TaskSt
  | start : Nat → TaskSt
  | awaitingFut : Nat → TaskSt
  | runningProd : Nat → Nat → Nat → TaskSt
  | done : Outcome → TaskSt
deriving DecidableEq, Repr

/-- Which wrapper class `async_lru_cache` constructed. -/
inductive Variant
  | memoized : Variant
  | uncached : Variant
  | cached : Nat → Variant
deriving DecidableEq, Repr

/-- The shared mutable state of one wrapper instance plus its callers.
`inFlight` maps a key to the id of its pending future, `cache` is the result
table (`_cache`), `futs` gives each created future its state, `prodCount`
counts producer invocations, `tasks` are the logical callers. -/
structure Sys where
  hits : Nat
  misses : Nat
  inFlight : List (Nat × Nat)
  cache : List (Nat × Nat)
  futs : List (Nat × FutState)
  nextFut : Nat
  prodCount : Nat
  tasks : List TaskSt
deriving DecidableEq, Repr

/-- One atomic step of task `i`: the prologue of `__call__` up to its first
suspension point, the completion of a producer invocation (the code after
`await self.__wrapped__(...)`, including the `finally`), or the wake-up of a
task awaiting an in-flight future.  `prod key inv` is the outcome of the
producer invocation number `inv` for `key`. -/
def step (var : Variant) (prod : Nat → Nat → Outcome) (s : Sys) (i : Nat) : Sys :=
  match s.tasks[i]? with
  | none => s
  | some (TaskSt.done _) => s
  | some (TaskSt.awaitingFut fid) =>
    match assocGet s.futs fid with
    | some (FutState.resolved v) =>
      { s with tasks := s.tasks.set i (TaskSt.done (Outcome.ok v)) }
    | some (FutState.failed e) =>
      { s with tasks := s.tasks.set i (TaskSt.done (Outcome.err e)) }
    | _ => s
  | some (TaskSt.start k) =>
    match var with
    | Variant.uncached =>
      { s with misses := s.misses + 1, prodCount := s.prodCount + 1,
               tasks := s.tasks.set i (TaskSt.runningProd k 0 s.prodCount) }
    | _ =>
      match assocGet s.cache k with
      | some v =>
        { s with hits := s.hits + 1,
                 cache := (match var with
                           | Variant.cached _ => moveToEnd s.cache k
                           | _ => s.cache),
                 tasks := s.tasks.set i (TaskSt.done (Outcome.ok v)) }
      | none =>
        match assocGet s.inFlight k with
        | some fid => { s with tasks := s.tasks.set i (TaskSt.awaitingFut fid) }
        | none =>
          { s with misses := s.misses + 1,
                   futs := s.futs ++ [(s.nextFut, FutState.pending)],
                   inFlight := s.inFlight ++ [(k, s.nextFut)],
                   nextFut := s.nextFut + 1,
                   prodCount := s.prodCount + 1,
                   tasks := s.tasks.set i (TaskSt.runningProd k s.nextFut s.prodCount) }
  | some (TaskSt.runningProd k fid inv) =>
    match var with
    | Variant.uncached => { s with tasks := s.tasks.set i (TaskSt.done (prod k inv)) }
    | Variant.memoized =>
      match prod k inv with
      | Outcome.ok v =>
        { s with futs := assocSet s.futs fid (FutState.resolved v),
                 cache := assocSet s.cache k v,
                 inFlight := if assocGet s.inFlight k = some fid
                             then assocPop s.inFlight k else s.inFlight,
                 tasks := s.tasks.set i (TaskSt.done (Outcome.ok v)) }
      | Outcome.err e =>
        { s with futs := assocSet s.futs fid (FutState.failed e),
                 inFlight := if assocGet s.inFlight k = some fid
                             then assocPop s.inFlight k else s.inFlight,
                 tasks := s.tasks.set i (TaskSt.done (Outcome.err e)) }
    | Variant.cached m =>
      match prod k inv with
      | Outcome.ok v =>
        { s with futs := assocSet s.futs fid (FutState.resolved v),
                 cache := if (assocGet s.cache k).isSome then s.cache
                          else (if m ≤ s.cache.length then s.cache.tail else s.cache) ++ [(k, v)],
                 inFlight := if assocGet s.inFlight k = some fid
                             then assocPop s.inFlight k else s.inFlight,
                 tasks := s.tasks.set i (TaskSt.done (Outcome.ok v)) }
      | Outcome.err e =>
        { s with futs := assocSet s.futs fid (FutState.failed e),
                 inFlight := if assocGet s.inFlight k = some fid
                             then assocPop s.inFlight k else s.inFlight,
                 tasks := s.tasks.set i (TaskSt.done (Outcome.err e)) }

/-- Run a schedule (list of task indices chosen by the event loop). -/
def run (var : Variant) (prod : Nat → Nat → Outcome) (s : Sys) : List Nat → Sys
  | [] => s
  | i :: rest => run var prod (step var prod s i) rest

/-- `cache_discard(*args)`: recompute the key and pop the cached entry; a no-op
for the zero-capacity wrapper; pending entries are untouched. -/
def cacheDiscard (var : Variant) (s : Sys) (k : Nat) : Sys :=
  match var with
  | Variant.uncached => s
  | _ => { s with cache := assocPop s.cache k }

/-- `cache_clear()`: reset counters and clear `_in_flight` (base class), and
clear `_cache` in the memoized and cached wrappers. -/
def cacheClear (var : Variant) (s : Sys) : Sys :=
  match var with
  | Variant.uncached => { s with hits := 0, misses := 0, inFlight := [] }
  | _ => { s with hits := 0, misses := 0, inFlight := [], cache := [] }

/-- The `CacheInfo` named tuple. -/
structure CacheInfo where
  hits : Nat
  misses : Nat
  maxsize : Option Nat
  currsize : Nat
deriving DecidableEq, Repr

/-- `cache_info()` of each wrapper class. -/
def cacheInfo (var : Variant) (s : Sys) : CacheInfo :=
  match var with
  | Variant.uncached => ⟨0, s.misses, some 0, 0⟩
  | Variant.memoized => ⟨s.hits, s.misses, none, s.cache.length⟩
  | Variant.cached m => ⟨s.hits, s.misses, some m, s.cache.length⟩

/-! ## Construction: async_lru_cache -/

/-- The possible first arguments of `async_lru_cache`. -/
inductive MaxsizeArg
  | intArg : Int → MaxsizeArg
  | noneArg : MaxsizeArg
  | callableArg : MaxsizeArg
  | otherArg : MaxsizeArg
deriving DecidableEq, Repr

instance {α β : Type} [DecidableEq α] [DecidableEq β] : DecidableEq (Except α β) :=
  fun a b =>
    match a, b with
    | Except.ok x, Except.ok y =>
      if h : x = y then isTrue (by rw [h]) else isFalse (by intro hh; cases hh; exact h rfl)
    | Except.error x, Except.error y =>
      if h : x = y then isTrue (by rw [h]) else isFalse (by intro hh; cases hh; exact h rfl)
    | Except.ok _, Except.error _ => isFalse (by intro hh; cases hh)
    | Except.error _, Except.ok _ => isFalse (by intro hh; cases hh)

def asyncLruCacheErrMsg : String :=
  "first argument to async_lru_cache must be an int, a callable or None"

/-- `async_lru_cache(maxsize)`: an int is clamped by `maxsize = max(maxsize, 0)`
and then dispatched by `lru_decorator` (`None` memoized, `0` uncached, else
cached); used bare as a decorator it wraps with `maxsize=128`; any other
argument raises `TypeError`. -/
def asyncLruCache : MaxsizeArg → Except String Variant
  | MaxsizeArg.intArg n =>
    let m := max n 0
    Except.ok (if m = 0 then Variant.uncached else Variant.cached m.toNat)
  | MaxsizeArg.noneArg => Except.ok Variant.memoized
  | MaxsizeArg.callableArg => Except.ok (Variant.cached 128)
  | MaxsizeArg.otherArg => Except.error asyncLruCacheErrMsg

/-- `async_lru_cache()` with the `maxsize` parameter omitted: the declared
default is `128`. -/
def asyncLruCacheDefault : Except String Variant :=
  asyncLruCache (MaxsizeArg.intArg 128)

/-! ## Initial states and producers -/

/-- Fresh wrapper state with one caller task per listed key. -/
def initSysKeys (ks : List Nat) : Sys :=
  { hits := 0, misses := 0, inFlight := [], cache := [], futs := [], nextFut := 0,
    prodCount := 0, tasks := ks.map TaskSt.start }

/-- Fresh wrapper state with `n` concurrent callers for the same key `k`. -/
def initSys (n k : Nat) : Sys := initSysKeys (List.replicate n k)

def isDone : TaskSt → Bool
  | TaskSt.done _ => true
  | _ => false

/-- Every caller has returned. -/
def allDone (s : Sys) : Prop := ∀ t ∈ s.tasks, isDone t = true

instance (s : Sys) : Decidable (allDone s) := by
  unfold allDone; infer_instance

/-- The variants the single-flight claims quantify over: unbounded, or bounded
with positive capacity (exactly the variants owning a result table). -/
def okVariant : Variant → Prop
  | Variant.memoized => True
  | Variant.uncached => False
  | Variant.cached m => 1 ≤ m

instance (v : Variant) : Decidable (okVariant v) :=
  match v with
  | Variant.memoized => isTrue trivial
  | Variant.uncached => isFalse id
  | Variant.cached m => Nat.decLe 1 m

/-- A producer returning its invocation number: distinct invocations give
distinct results, so equal results certify a shared invocation. -/
def prodId : Nat → Nat → Outcome := fun _ inv => Outcome.ok inv

/-- A producer computing a value from the key (`key + 100`). -/
def prodK : Nat → Nat → Outcome := fun key _ => Outcome.ok (key + 100)

/-- A producer that always raises (error code 7). -/
def prodE : Nat → Nat → Outcome := fun _ _ => Outcome.err 7

/-! ## Association-list lemmas -/

theorem assocGet_append_none {α : Type} {d : List (Nat × α)} {k : Nat}
    (h : assocGet d k = none) (d2 : List (Nat × α)) :
    assocGet (d ++ d2) k = assocGet d2 k := by
  induction d with
  | nil => rfl
  | cons p d ih =>
    obtain ⟨a, b⟩ := p
    by_cases hak : a = k
    · simp only [assocGet, if_pos hak] at h
      exact absurd h (by simp)
    · simp only [assocGet, if_neg hak] at h
      simp only [List.cons_append, assocGet, if_neg hak]
      exact ih h

theorem assocGet_append_some {α : Type} {d : List (Nat × α)} {k : Nat} {v : α}
    (h : assocGet d k = some v) (d2 : List (Nat × α)) :
    assocGet (d ++ d2) k = some v := by
  induction d with
  | nil => simp [assocGet] at h
  | cons p d ih =>
    obtain ⟨a, b⟩ := p
    by_cases hak : a = k
    · simp only [assocGet, if_pos hak] at h
      simp only [List.cons_append, assocGet, if_pos hak]
      exact h
    · simp only [assocGet, if_neg hak] at h
      simp only [List.cons_append, assocGet, if_neg hak]
      exact ih h

theorem assocGet_pop_self {α : Type} (d : List (Nat × α)) (k : Nat) :
    assocGet (assocPop d k) k = none := by
  induction d with
  | nil => rfl
  | cons p d ih =>
    obtain ⟨a, b⟩ := p
    by_cases hak : a = k
    · simp only [assocPop, if_pos hak]; exact ih
    · simp only [assocPop, if_neg hak, assocGet, if_neg hak]; exact ih

theorem assocGet_pop_ne {α : Type} (d : List (Nat × α)) {k k2 : Nat} (h : k2 ≠ k) :
    assocGet (assocPop d k) k2 = assocGet d k2 := by
  induction d with
  | nil => rfl
  | cons p d ih =>
    obtain ⟨a, b⟩ := p
    by_cases hak : a = k
    · have hak2 : a ≠ k2 := fun hh => h (hh ▸ hak.symm ▸ rfl)
      simp only [assocPop, if_pos hak, assocGet, if_neg hak2]
      exact ih
    · simp only [assocPop, if_neg hak, assocGet]
      by_cases hak2 : a = k2
      · simp only [if_pos hak2]
      · simp only [if_neg hak2]; exact ih

theorem assocPop_length_le {α : Type} (d : List (Nat × α)) (k : Nat) :
    (assocPop d k).length ≤ d.length := by
  induction d with
  | nil => exact Nat.le_refl 0
  | cons p d ih =>
    obtain ⟨a, b⟩ := p
    by_cases hak : a = k
    · simp only [assocPop, if_pos hak, List.length_cons]
      exact Nat.le_succ_of_le ih
    · simp only [assocPop, if_neg hak, List.length_cons]
      exact Nat.succ_le_succ ih

theorem assocPop_length_lt {α : Type} {d : List (Nat × α)} {k : Nat} {v : α}
    (h : assocGet d k = some v) : (assocPop d k).length < d.length := by
  induction d with
  | nil => simp [assocGet] at h
  | cons p d ih =>
    obtain ⟨a, b⟩ := p
    by_cases hak : a = k
    · simp only [assocPop, if_pos hak, List.length_cons]
      exact Nat.lt_succ_of_le (assocPop_length_le d k)
    · simp only [assocGet, if_neg hak] at h
      simp only [assocPop, if_neg hak, List.length_cons]
      exact Nat.succ_lt_succ (ih h)

theorem assocGet_set_some {α : Type} {d : List (Nat × α)} {k : Nat} {w : α}
    (h : assocGet d k = some w) (k2 : Nat) (v : α) :
    ∃ w2, assocGet (assocSet d k2 v) k = some w2 := by
  induction d with
  | nil => simp [assocGet] at h
  | cons p d ih =>
    obtain ⟨a, b⟩ := p
    by_cases hak2 : a = k2
    · simp only [assocSet, if_pos hak2]
      by_cases hk : k2 = k
      · exact ⟨v, by simp [assocGet, if_pos hk]⟩
      · simp only [assocGet, if_neg hk]
        have hak : a ≠ k := fun hh => hk (hak2 ▸ hh)
        simp only [assocGet, if_neg hak] at h
        exact ⟨w, h⟩
    · simp only [assocSet, if_neg hak2]
      by_cases hak : a = k
      · simp only [assocGet, if_pos hak] at h ⊢
        exact ⟨b, rfl⟩
      · simp only [assocGet, if_neg hak] at h ⊢
        exact ih h

theorem assocGet_none_of_not_mem {α : Type} {d : List (Nat × α)} {k : Nat}
    (h : k ∉ d.map Prod.fst) : assocGet d k = none := by
  induction d with
  | nil => rfl
  | cons p d ih =>
    obtain ⟨a, b⟩ := p
    simp only [List.map_cons, List.mem_cons] at h
    push_neg at h
    simp only [assocGet, if_neg (fun hh : a = k => h.1 hh.symm)]
    exact ih h.2

/-! ## Generic facts about the step machine -/

theorem step_tasks_length (var : Variant) (prod : Nat → Nat → Outcome) (s : Sys) (i : Nat) :
    (step var prod s i).tasks.length = s.tasks.length := by
  unfold step
  rcases hget : s.tasks[i]? with _ | t
  · rfl
  · rcases t with k | fid | ⟨k, fid, inv⟩ | r <;> cases var <;>
      simp only [] <;>
      first
        | rfl
        | (rcases assocGet s.futs fid with _ | fs
           · rfl
           · rcases fs with _ | v | e <;> simp [List.length_set])
        | (rcases assocGet s.cache k with _ | v
           · rcases assocGet s.inFlight k with _ | fid2 <;> simp [List.length_set]
           · simp [List.length_set])
        | (rcases prod k inv with v | e <;> simp [List.length_set])

theorem run_tasks_length (var : Variant) (prod : Nat → Nat → Outcome) (sch : List Nat)
    (s : Sys) : (run var prod s sch).tasks.length = s.tasks.length := by
  induction sch generalizing s with
  | nil => rfl
  | cons i rest ih => simp only [run]; rw [ih, step_tasks_length]

/-! ## Branch characterizations of `step` -/

theorem step_oob (var : Variant) (prod : Nat → Nat → Outcome) (s : Sys) (i : Nat)
    (h : s.tasks[i]? = none) : step var prod s i = s := by
  simp [step, h]

theorem step_done (var : Variant) (prod : Nat → Nat → Outcome) (s : Sys) (i : Nat)
    (r : Outcome) (h : s.tasks[i]? = some (TaskSt.done r)) : step var prod s i = s := by
  simp [step, h]

theorem step_hit_memoized (prod : Nat → Nat → Outcome) (s : Sys) (i k v : Nat)
    (h : s.tasks[i]? = some (TaskSt.start k)) (hv : assocGet s.cache k = some v) :
    step Variant.memoized prod s i =
      { s with hits := s.hits + 1,
               tasks := s.tasks.set i (TaskSt.done (Outcome.ok v)) } := by
  simp [step, h, hv]

theorem step_hit_cached (prod : Nat → Nat → Outcome) (s : Sys) (m i k v : Nat)
    (h : s.tasks[i]? = some (TaskSt.start k)) (hv : assocGet s.cache k = some v) :
    step (Variant.cached m) prod s i =
      { s with hits := s.hits + 1,
               cache := moveToEnd s.cache k,
               tasks := s.tasks.set i (TaskSt.done (Outcome.ok v)) } := by
  simp [step, h, hv]

theorem step_join (var : Variant) (hvar : okVariant var) (prod : Nat → Nat → Outcome)
    (s : Sys) (i k fid : Nat)
    (h : s.tasks[i]? = some (TaskSt.start k)) (hv : assocGet s.cache k = none)
    (hf : assocGet s.inFlight k = some fid) :
    step var prod s i = { s with tasks := s.tasks.set i (TaskSt.awaitingFut fid) } := by
  cases var with
  | uncached => exact hvar.elim
  | memoized => simp [step, h, hv, hf]
  | cached m => simp [step, h, hv, hf]

theorem step_register (var : Variant) (hvar : okVariant var) (prod : Nat → Nat → Outcome)
    (s : Sys) (i k : Nat)
    (h : s.tasks[i]? = some (TaskSt.start k)) (hv : assocGet s.cache k = none)
    (hf : assocGet s.inFlight k = none) :
    step var prod s i =
      { s with misses := s.misses + 1,
               futs := s.futs ++ [(s.nextFut, FutState.pending)],
               inFlight := s.inFlight ++ [(k, s.nextFut)],
               nextFut := s.nextFut + 1,
               prodCount := s.prodCount + 1,
               tasks := s.tasks.set i (TaskSt.runningProd k s.nextFut s.prodCount) } := by
  cases var with
  | uncached => exact hvar.elim
  | memoized => simp [step, h, hv, hf]
  | cached m => simp [step, h, hv, hf]

theorem step_await_pending (var : Variant) (prod : Nat → Nat → Outcome) (s : Sys)
    (i fid : Nat) (h : s.tasks[i]? = some (TaskSt.awaitingFut fid))
    (hf : assocGet s.futs fid = some FutState.pending) : step var prod s i = s := by
  simp [step, h, hf]

theorem step_await_none (var : Variant) (prod : Nat → Nat → Outcome) (s : Sys)
    (i fid : Nat) (h : s.tasks[i]? = some (TaskSt.awaitingFut fid))
    (hf : assocGet s.futs fid = none) : step var prod s i = s := by
  simp [step, h, hf]

theorem step_await_resolved (var : Variant) (prod : Nat → Nat → Outcome) (s : Sys)
    (i fid v : Nat) (h : s.tasks[i]? = some (TaskSt.awaitingFut fid))
    (hf : assocGet s.futs fid = some (FutState.resolved v)) :
    step var prod s i =
      { s with tasks := s.tasks.set i (TaskSt.done (Outcome.ok v)) } := by
  simp [step, h, hf]

theorem step_await_failed (var : Variant) (prod : Nat → Nat → Outcome) (s : Sys)
    (i fid e : Nat) (h : s.tasks[i]? = some (TaskSt.awaitingFut fid))
    (hf : assocGet s.futs fid = some (FutState.failed e)) :
    step var prod s i =
      { s with tasks := s.tasks.set i (TaskSt.done (Outcome.err e)) } := by
  simp [step, h, hf]

theorem step_run_ok_memoized (prod : Nat → Nat → Outcome) (s : Sys) (i k fid inv v : Nat)
    (h : s.tasks[i]? = some (TaskSt.runningProd k fid inv))
    (hp : prod k inv = Outcome.ok v) :
    step Variant.memoized prod s i =
      { s with futs := assocSet s.futs fid (FutState.resolved v),
               cache := assocSet s.cache k v,
               inFlight := if assocGet s.inFlight k = some fid
                           then assocPop s.inFlight k else s.inFlight,
               tasks := s.tasks.set i (TaskSt.done (Outcome.ok v)) } := by
  simp [step, h, hp]

theorem step_run_ok_cached (prod : Nat → Nat → Outcome) (s : Sys) (m i k fid inv v : Nat)
    (h : s.tasks[i]? = some (TaskSt.runningProd k fid inv))
    (hp : prod k inv = Outcome.ok v) :
    step (Variant.cached m) prod s i =
      { s with futs := assocSet s.futs fid (FutState.resolved v),
               cache := if (assocGet s.cache k).isSome then s.cache
                        else (if m ≤ s.cache.length then s.cache.tail else s.cache) ++ [(k, v)],
               inFlight := if assocGet s.inFlight k = some fid
                           then assocPop s.inFlight k else s.inFlight,
               tasks := s.tasks.set i (TaskSt.done (Outcome.ok v)) } := by
  simp [step, h, hp]

theorem step_run_err (var : Variant) (hvar : okVariant var) (prod : Nat → Nat → Outcome)
    (s : Sys) (i k fid inv e : Nat)
    (h : s.tasks[i]? = some (TaskSt.runningProd k fid inv))
    (hp : prod k inv = Outcome.err e) :
    step var prod s i =
      { s with futs := assocSet s.futs fid (FutState.failed e),
               inFlight := if assocGet s.inFlight k = some fid
                           then assocPop s.inFlight k else s.inFlight,
               tasks := s.tasks.set i (TaskSt.done (Outcome.err e)) } := by
  cases var with
  | uncached => exact hvar.elim
  | memoized => simp [step, h, hp]
  | cached m => simp [step, h, hp]

theorem step_start_uncached (prod : Nat → Nat → Outcome) (s : Sys) (i k : Nat)
    (h : s.tasks[i]? = some (TaskSt.start k)) :
    step Variant.uncached prod s i =
      { s with misses := s.misses + 1, prodCount := s.prodCount + 1,
               tasks := s.tasks.set i (TaskSt.runningProd k 0 s.prodCount) } := by
  simp [step, h]

theorem step_run_uncached (prod : Nat → Nat → Outcome) (s : Sys) (i k fid inv : Nat)
    (h : s.tasks[i]? = some (TaskSt.runningProd k fid inv)) :
    step Variant.uncached prod s i =
      { s with tasks := s.tasks.set i (TaskSt.done (prod k inv)) } := by
  simp [step, h]

theorem set_mem_pred {l : List TaskSt} {i : Nat} {b : TaskSt} (P : TaskSt → Prop)
    (hl : ∀ t ∈ l, P t) (hb : P b) : ∀ t ∈ l.set i b, P t := by
  intro t ht
  rcases List.mem_or_eq_of_mem_set ht with hin | heq
  · exact hl t hin
  · exact heq ▸ hb

/-! ## C1: single-flight coalescing, for the unbounded and positive-capacity
variants, proved by a three-phase invariant over all interleavings -/

/-- No producer invocation yet: pristine wrapper state, every caller still at
the prologue for key `k`. -/
def phase0 (k : Nat) (s : Sys) : Prop :=
  s.prodCount = 0 ∧ s.misses = 0 ∧ s.inFlight = [] ∧ s.cache = [] ∧ s.futs = [] ∧
  s.nextFut = 0 ∧ ∀ t ∈ s.tasks, t = TaskSt.start k

/-- The unique producer invocation (number 0, owning future 0) is in flight:
future 0 is pending and registered for `k`; every caller is at the prologue,
joined on future 0, or driving the invocation. -/
def phaseRun (k : Nat) (s : Sys) : Prop :=
  s.prodCount = 1 ∧ s.misses = 1 ∧ s.inFlight = [(k, 0)] ∧ s.cache = [] ∧
  s.futs = [(0, FutState.pending)] ∧ s.nextFut = 1 ∧
  ∀ t ∈ s.tasks, t = TaskSt.start k ∨ t = TaskSt.awaitingFut 0 ∨
    t = TaskSt.runningProd k 0 0

/-- The unique producer invocation completed with value 0: the result is
cached, the in-flight registry is empty again, and every finished caller
returned 0. -/
def phaseDone (k : Nat) (s : Sys) : Prop :=
  s.prodCount = 1 ∧ s.misses = 1 ∧ s.inFlight = [] ∧ s.cache = [(k, 0)] ∧
  s.futs = [(0, FutState.resolved 0)] ∧ s.nextFut = 1 ∧
  ∀ t ∈ s.tasks, t = TaskSt.start k ∨ t = TaskSt.awaitingFut 0 ∨
    t = TaskSt.runningProd k 0 0 ∨ t = TaskSt.done (Outcome.ok 0)

def singleKeyInv (k : Nat) (s : Sys) : Prop :=
  phase0 k s ∨ phaseRun k s ∨ phaseDone k s

theorem singleKeyInv_init (n k : Nat) : singleKeyInv k (initSys n k) := by
  left
  refine ⟨rfl, rfl, rfl, rfl, rfl, rfl, ?_⟩
  intro t ht
  simp only [initSys, initSysKeys, List.mem_map] at ht
  obtain ⟨a, ha, rfl⟩ := ht
  rw [List.eq_of_mem_replicate ha]

theorem singleKeyInv_step (var : Variant) (hvar : okVariant var) (k : Nat) (s : Sys)
    (i : Nat) (h : singleKeyInv k s) : singleKeyInv k (step var prodId s i) := by
  rcases hget : s.tasks[i]? with _ | t
  · rw [step_oob var prodId s i hget]; exact h
  have hmem : t ∈ s.tasks := List.getElem?_mem hget
  rcases h with h0 | hR | hD
  · -- phase 0: the scheduled task registers the one producer invocation
    obtain ⟨hp, hm, hif, hc, hf, hn, ht⟩ := h0
    have htt : t = TaskSt.start k := ht t hmem
    subst htt
    have hcache : assocGet s.cache k = none := by rw [hc]; rfl
    have hifk : assocGet s.inFlight k = none := by rw [hif]; rfl
    rw [step_register var hvar prodId s i k hget hcache hifk]
    right; left
    refine ⟨by simp [hp], by simp [hm], by simp [hif, hn], by simp [hc],
      by simp [hf, hn], by simp [hn], ?_⟩
    refine set_mem_pred _ (fun t2 h2 => Or.inl (ht t2 h2)) ?_
    rw [hn, hp]
    right; right; rfl
  · -- phase run: joiners attach to future 0; the driver resolves it
    obtain ⟨hp, hm, hif, hc, hf, hn, ht⟩ := hR
    rcases ht t hmem with htt | htt | htt <;> subst htt
    · have hcache : assocGet s.cache k = none := by rw [hc]; rfl
      have hifk : assocGet s.inFlight k = some 0 := by rw [hif]; simp [assocGet]
      rw [step_join var hvar prodId s i k 0 hget hcache hifk]
      right; left
      exact ⟨hp, hm, hif, hc, hf, hn,
        set_mem_pred _ ht (Or.inr (Or.inl rfl))⟩
    · have hfut : assocGet s.futs 0 = some FutState.pending := by
        rw [hf]; simp [assocGet]
      rw [step_await_pending var prodId s i 0 hget hfut]
      right; left
      exact ⟨hp, hm, hif, hc, hf, hn, ht⟩
    · have hprod : prodId k 0 = Outcome.ok 0 := rfl
      cases var with
      | uncached => exact hvar.elim
      | memoized =>
        rw [step_run_ok_memoized prodId s i k 0 0 0 hget hprod]
        right; right
        refine ⟨hp, hm, ?_, ?_, ?_, hn, ?_⟩
        · simp [hif, assocGet, assocPop]
        · simp [hc, assocSet]
        · simp [hf, assocSet]
        · refine set_mem_pred _ ?_ (Or.inr (Or.inr (Or.inr rfl)))
          intro t2 h2
          rcases ht t2 h2 with h1 | h1 | h1
          · exact Or.inl h1
          · exact Or.inr (Or.inl h1)
          · exact Or.inr (Or.inr (Or.inl h1))
      | cached m =>
        rw [step_run_ok_cached prodId s m i k 0 0 0 hget hprod]
        right; right
        refine ⟨hp, hm, ?_, ?_, ?_, hn, ?_⟩
        · simp [hif, assocGet, assocPop]
        · simp [hc, assocGet]
        · simp [hf, assocSet]
        · refine set_mem_pred _ ?_ (Or.inr (Or.inr (Or.inr rfl)))
          intro t2 h2
          rcases ht t2 h2 with h1 | h1 | h1
          · exact Or.inl h1
          · exact Or.inr (Or.inl h1)
          · exact Or.inr (Or.inr (Or.inl h1))
  · -- phase done: remaining callers hit the cache or read the resolved future
    obtain ⟨hp, hm, hif, hc, hf, hn, ht⟩ := hD
    rcases ht t hmem with htt | htt | htt | htt <;> subst htt
    · have hcache : assocGet s.cache k = some 0 := by rw [hc]; simp [assocGet]
      cases var with
      | uncached => exact hvar.elim
      | memoized =>
        rw [step_hit_memoized prodId s i k 0 hget hcache]
        right; right
        exact ⟨hp, hm, hif, hc, hf, hn,
          set_mem_pred _ ht (Or.inr (Or.inr (Or.inr rfl)))⟩
      | cached m =>
        rw [step_hit_cached prodId s m i k 0 hget hcache]
        right; right
        refine ⟨hp, hm, hif, ?_, hf, hn,
          set_mem_pred _ ht (Or.inr (Or.inr (Or.inr rfl)))⟩
        simp [hc, moveToEnd, assocGet, assocPop]
    · have hfut : assocGet s.futs 0 = some (FutState.resolved 0) := by
        rw [hf]; simp [assocGet]
      rw [step_await_resolved var prodId s i 0 0 hget hfut]
      right; right
      exact ⟨hp, hm, hif, hc, hf, hn,
        set_mem_pred _ ht (Or.inr (Or.inr (Or.inr rfl)))⟩
    · have hprod : prodId k 0 = Outcome.ok 0 := rfl
      cases var with
      | uncached => exact hvar.elim
      | memoized =>
        rw [step_run_ok_memoized prodId s i k 0 0 0 hget hprod]
        right; right
        refine ⟨hp, hm, ?_, ?_, ?_, hn,
          set_mem_pred _ ht (Or.inr (Or.inr (Or.inr rfl)))⟩
        · simp [hif, assocGet]
        · simp [hc, assocSet]
        · simp [hf, assocSet]
      | cached m =>
        rw [step_run_ok_cached prodId s m i k 0 0 0 hget hprod]
        right; right
        refine ⟨hp, hm, ?_, ?_, ?_, hn,
          set_mem_pred _ ht (Or.inr (Or.inr (Or.inr rfl)))⟩
        · simp [hif, assocGet]
        · simp [hc, assocGet]
        · simp [hf, assocSet]
    · rw [step_done var prodId s i _ hget]
      right; right
      exact ⟨hp, hm, hif, hc, hf, hn, ht⟩

theorem singleKeyInv_run (var : Variant) (hvar : okVariant var) (k : Nat)
    (sch : List Nat) (s : Sys) (h : singleKeyInv k s) :
    singleKeyInv k (run var prodId s sch) := by
  induction sch generalizing s with
  | nil => exact h
  | cons i rest ih => exact ih _ (singleKeyInv_step var hvar k s i h)

/-- C1: for every cache constructed with unbounded or positive capacity, for
every number of concurrent callers with the same arguments and every
interleaving the event loop may choose (no clear or discard intervening), once
all callers have returned the producer has executed exactly once, and every
caller received the result of that single invocation (`prodId` returns the
invocation number, so equal results certify the shared invocation). -/
theorem c1_single_flight (var : Variant) (hvar : okVariant var) (k n : Nat)
    (sch : List Nat) (hn : 1 ≤ n)
    (hdone : allDone (run var prodId (initSys n k) sch)) :
    (run var prodId (initSys n k) sch).prodCount = 1 ∧
    ∀ t ∈ (run var prodId (initSys n k) sch).tasks,
      t = TaskSt.done (Outcome.ok 0) := by
  have hinv := singleKeyInv_run var hvar k sch _ (singleKeyInv_init n k)
  set s := run var prodId (initSys n k) sch with hs
  have hlen : s.tasks.length = n := by
    rw [hs, run_tasks_length]; simp [initSys, initSysKeys]
  have hne : s.tasks ≠ [] := by
    intro hnil; rw [hnil] at hlen; simp at hlen; omega
  obtain ⟨t0, ht0⟩ := List.exists_mem_of_ne_nil s.tasks hne
  rcases hinv with h0 | hR | hD
  · exact absurd (hdone t0 ht0) (by rw [h0.2.2.2.2.2.2 t0 ht0]; simp [isDone])
  · rcases hR.2.2.2.2.2.2 t0 ht0 with h1 | h1 | h1 <;>
      exact absurd (hdone t0 ht0) (by rw [h1]; simp [isDone])
  · refine ⟨hD.1, ?_⟩
    intro t ht
    rcases hD.2.2.2.2.2.2 t ht with h1 | h1 | h1 | h1
    · exact absurd (hdone t ht) (by rw [h1]; simp [isDone])
    · exact absurd (hdone t ht) (by rw [h1]; simp [isDone])
    · exact absurd (hdone t ht) (by rw [h1]; simp [isDone])
    · exact h1

/-- Witness for C1: three concurrent callers for key 7 under capacity 2,
interleaved prologue-first; all three return the result of invocation 0. -/
theorem c1_single_flight_witness :
    (okVariant (Variant.cached 2) ∧ 1 ≤ 3 ∧
      allDone (run (Variant.cached 2) prodId (initSys 3 7) [0, 1, 2, 0, 1, 2])) ∧
    ((run (Variant.cached 2) prodId (initSys 3 7) [0, 1, 2, 0, 1, 2]).prodCount = 1 ∧
     ∀ t ∈ (run (Variant.cached 2) prodId (initSys 3 7) [0, 1, 2, 0, 1, 2]).tasks,
       t = TaskSt.done (Outcome.ok 0)) :=
  ⟨⟨by decide, by decide, by decide⟩,
   c1_single_flight (Variant.cached 2) (by decide) 7 3 [0, 1, 2, 0, 1, 2]
     (by decide) (by decide)⟩

/-! ## C7: zero-capacity pass-through wrapper -/

def isStart : TaskSt → Bool
  | TaskSt.start _ => true
  | _ => false

theorem countP_set (p : TaskSt → Bool) (l : List TaskSt) (i : Nat) (a b : TaskSt)
    (h : l[i]? = some a) :
    (l.set i b).countP p + (if p a then 1 else 0) =
      l.countP p + (if p b then 1 else 0) := by
  induction l generalizing i with
  | nil => simp at h
  | cons x xs ih =>
    cases i with
    | zero =>
      simp only [List.getElem?_cons_zero, Option.some_inj] at h
      subst h
      simp only [List.set_cons_zero, List.countP_cons]
      omega
    | succ j =>
      simp only [List.getElem?_cons_succ] at h
      simp only [List.set_cons_succ, List.countP_cons]
      have := ih j h
      omega

/-- Invariant of `UncachedLRUAsyncCallable`: no table, no registry, no hits,
one miss and one producer invocation per caller past the prologue, and no
caller ever joins an in-flight entry. -/
def uncachedInv (n : Nat) (s : Sys) : Prop :=
  s.hits = 0 ∧ s.cache = [] ∧ s.inFlight = [] ∧ s.futs = [] ∧
  s.misses = s.prodCount ∧
  s.prodCount + s.tasks.countP isStart = n ∧
  s.tasks.length = n ∧
  ∀ t ∈ s.tasks, ∀ fid, t ≠ TaskSt.awaitingFut fid

theorem uncachedInv_init (n k : Nat) : uncachedInv n (initSys n k) := by
  refine ⟨rfl, rfl, rfl, rfl, rfl, ?_, by simp [initSys, initSysKeys], ?_⟩
  · have : (initSys n k).tasks.countP isStart = (initSys n k).tasks.length := by
      rw [List.countP_eq_length]
      intro a ha
      simp only [initSys, initSysKeys, List.mem_map] at ha
      obtain ⟨x, hx, rfl⟩ := ha
      rfl
    rw [this]
    simp [initSys, initSysKeys]
  · intro t ht fid
    simp only [initSys, initSysKeys, List.mem_map] at ht
    obtain ⟨x, hx, rfl⟩ := ht
    exact fun hcontra => TaskSt.noConfusion hcontra

theorem uncachedInv_step (prod : Nat → Nat → Outcome) (n : Nat) (s : Sys) (i : Nat)
    (h : uncachedInv n s) : uncachedInv n (step Variant.uncached prod s i) := by
  rcases hget : s.tasks[i]? with _ | t
  · rw [step_oob _ _ _ _ hget]; exact h
  obtain ⟨hh, hc, hif, hf, hmp, hcount, hlen, hnj⟩ := h
  have hmem : t ∈ s.tasks := List.getElem?_mem hget
  rcases t with k | fid | ⟨k, fid, inv⟩ | r
  · rw [step_start_uncached prod s i k hget]
    have hcs := countP_set isStart s.tasks i (TaskSt.start k)
      (TaskSt.runningProd k 0 s.prodCount) hget
    simp [isStart] at hcs
    refine ⟨hh, hc, hif, hf, by simp [hmp], ?_, by simp [List.length_set, hlen], ?_⟩
    · show s.prodCount + 1 +
        (s.tasks.set i (TaskSt.runningProd k 0 s.prodCount)).countP isStart = n
      omega
    · exact set_mem_pred _ hnj (fun fid2 hcontra => TaskSt.noConfusion hcontra)
  · exact absurd rfl (hnj _ hmem fid)
  · rw [step_run_uncached prod s i k fid inv hget]
    have hcs := countP_set isStart s.tasks i (TaskSt.runningProd k fid inv)
      (TaskSt.done (prod k inv)) hget
    simp [isStart] at hcs
    refine ⟨hh, hc, hif, hf, hmp, ?_, by simp [List.length_set, hlen], ?_⟩
    · show s.prodCount + (s.tasks.set i (TaskSt.done (prod k inv))).countP isStart = n
      omega
    · exact set_mem_pred _ hnj (fun fid2 hcontra => TaskSt.noConfusion hcontra)
  · rw [step_done _ _ _ _ r hget]
    exact ⟨hh, hc, hif, hf, hmp, hcount, hlen, hnj⟩

theorem uncachedInv_run (prod : Nat → Nat → Outcome) (n : Nat) (sch : List Nat)
    (s : Sys) (h : uncachedInv n s) :
    uncachedInv n (run Variant.uncached prod s sch) := by
  induction sch generalizing s with
  | nil => exact h
  | cons i rest ih => exact ih _ (uncachedInv_step prod n s i h)

/-- C7: a cache constructed with capacity 0 invokes the producer once per
call and counts one miss per call, under every interleaving of any number of
concurrent identical calls; the hit counter and the reported size stay 0, and
no caller ever joins an in-flight entry (coalescing is disabled). -/
theorem c7_zero_capacity (prod : Nat → Nat → Outcome) (n k : Nat) (sch : List Nat) :
    (run Variant.uncached prod (initSys n k) sch).hits = 0 ∧
    cacheInfo Variant.uncached (run Variant.uncached prod (initSys n k) sch) =
      ⟨0, (run Variant.uncached prod (initSys n k) sch).misses, some 0, 0⟩ ∧
    (∀ t ∈ (run Variant.uncached prod (initSys n k) sch).tasks,
      ∀ fid, t ≠ TaskSt.awaitingFut fid) ∧
    (run Variant.uncached prod (initSys n k) sch).misses =
      (run Variant.uncached prod (initSys n k) sch).prodCount ∧
    (allDone (run Variant.uncached prod (initSys n k) sch) →
      (run Variant.uncached prod (initSys n k) sch).misses = n ∧
      (run Variant.uncached prod (initSys n k) sch).prodCount = n) := by
  have hinv := uncachedInv_run prod n sch _ (uncachedInv_init n k)
  set s := run Variant.uncached prod (initSys n k) sch with hs
  obtain ⟨hh, hc, hif, hf, hmp, hcount, hlen, hnj⟩ := hinv
  refine ⟨hh, rfl, hnj, hmp, ?_⟩
  intro hdone
  have hzero : s.tasks.countP isStart = 0 := by
    rw [List.countP_eq_zero]
    intro a ha hpa
    have hda := hdone a ha
    rcases a with k2 | fid | ⟨k2, fid, inv⟩ | r
    · exact absurd hda (by simp [isDone])
    · exact absurd hpa (by simp [isStart])
    · exact absurd hpa (by simp [isStart])
    · exact absurd hpa (by simp [isStart])
  omega

/-- Witness for C7: two concurrent identical calls under capacity 0 yield two
producer invocations and two misses. -/
theorem c7_zero_capacity_witness :
    allDone (run Variant.uncached prodK (initSys 2 3) [0, 0, 1, 1]) ∧
    (run Variant.uncached prodK (initSys 2 3) [0, 0, 1, 1]).hits = 0 ∧
    (run Variant.uncached prodK (initSys 2 3) [0, 0, 1, 1]).misses = 2 ∧
    (run Variant.uncached prodK (initSys 2 3) [0, 0, 1, 1]).prodCount = 2 :=
  ⟨by decide,
   (c7_zero_capacity prodK 2 3 [0, 0, 1, 1]).1,
   ((c7_zero_capacity prodK 2 3 [0, 0, 1, 1]).2.2.2.2 (by decide)).1,
   ((c7_zero_capacity prodK 2 3 [0, 0, 1, 1]).2.2.2.2 (by decide)).2⟩

/-! ## C2: bounded-LRU promotion and eviction -/

theorem assocGet_pop_append {α : Type} (d : List (Nat × α)) (k : Nat) (v : α)
    {k2 : Nat} (h : k2 ≠ k) :
    assocGet (assocPop d k ++ [(k, v)]) k2 = assocGet d k2 := by
  rcases hpop : assocGet (assocPop d k) k2 with _ | w
  · rw [assocGet_append_none hpop]
    rw [assocGet_pop_ne d h] at hpop
    rw [hpop]
    simp [assocGet, if_neg (fun hh : k = k2 => h hh.symm)]
  · rw [assocGet_append_some hpop]
    rw [assocGet_pop_ne d h] at hpop
    exact hpop.symm

theorem set_getElem?_self {α : Type} {l : List α} {i : Nat} (h : i < l.length) (b : α) :
    (l.set i b)[i]? = some b := by
  simp [List.getElem?_set_self', List.getElem?_eq_getElem h]

/-- The branch-point state of the spec scenario `wrap(f, capacity=2)`:
call(1), call(2), call(3) executed sequentially, with tasks for the
continuations call(1) and call(2) still at their prologue. -/
def lruScenario : Sys :=
  run (Variant.cached 2) prodK (initSysKeys [1, 2, 3, 1, 2]) [0, 0, 1, 1, 2, 2]

/-- C2: in a bounded cache of capacity `m`, a hit promotes its entry to the
most-recently-used end without disturbing other keys; completing a producer
invocation for a new key when the table already holds `m` entries first evicts
exactly the least-recently-used entry (the front of the access order), leaving
every other key retrievable; and in the capacity-2 scenario the three calls
leave the table holding keys 2 and 3, from which a further call(1) is a miss
that re-invokes the producer and a further call(2) is a hit. -/
theorem c2_lru_eviction (m : Nat) (prod : Nat → Nat → Outcome) (s : Sys) (i : Nat) :
    (∀ k v, s.tasks[i]? = some (TaskSt.start k) → assocGet s.cache k = some v →
      (step (Variant.cached m) prod s i).hits = s.hits + 1 ∧
      (step (Variant.cached m) prod s i).cache.getLast? = some (k, v) ∧
      (∀ k2, k2 ≠ k → assocGet (step (Variant.cached m) prod s i).cache k2 =
        assocGet s.cache k2) ∧
      (step (Variant.cached m) prod s i).tasks[i]? = some (TaskSt.done (Outcome.ok v))) ∧
    (∀ k fid inv v ek ev rest, s.tasks[i]? = some (TaskSt.runningProd k fid inv) →
      prod k inv = Outcome.ok v → assocGet s.cache k = none →
      s.cache = (ek, ev) :: rest → s.cache.length = m →
      (s.cache.map Prod.fst).Nodup →
      (step (Variant.cached m) prod s i).cache = rest ++ [(k, v)] ∧
      assocGet (step (Variant.cached m) prod s i).cache ek = none ∧
      assocGet (step (Variant.cached m) prod s i).cache k = some v ∧
      (∀ k2, k2 ≠ ek → k2 ≠ k →
        assocGet (step (Variant.cached m) prod s i).cache k2 = assocGet s.cache k2)) ∧
    (lruScenario.cache = [(2, 102), (3, 103)] ∧
     lruScenario.misses = 3 ∧ lruScenario.prodCount = 3 ∧ lruScenario.hits = 0 ∧
     (run (Variant.cached 2) prodK lruScenario [3, 3]).misses = 4 ∧
     (run (Variant.cached 2) prodK lruScenario [3, 3]).prodCount = 4 ∧
     (run (Variant.cached 2) prodK lruScenario [3, 3]).tasks[3]? =
       some (TaskSt.done (Outcome.ok 101)) ∧
     (run (Variant.cached 2) prodK lruScenario [4]).hits = 1 ∧
     (run (Variant.cached 2) prodK lruScenario [4]).prodCount = 3 ∧
     (run (Variant.cached 2) prodK lruScenario [4]).tasks[4]? =
       some (TaskSt.done (Outcome.ok 102))) := by
  refine ⟨?_, ?_, by decide⟩
  · intro k v hget hv
    have hidx : i < s.tasks.length := (List.getElem?_eq_some.mp hget).1
    rw [step_hit_cached prod s m i k v hget hv]
    refine ⟨rfl, ?_, ?_, ?_⟩
    · show (moveToEnd s.cache k).getLast? = some (k, v)
      rw [moveToEnd, hv]
      exact List.getLast?_concat _
    · intro k2 hk2
      show assocGet (moveToEnd s.cache k) k2 = assocGet s.cache k2
      rw [moveToEnd, hv]
      exact assocGet_pop_append s.cache k v hk2
    · show (s.tasks.set i (TaskSt.done (Outcome.ok v)))[i]? = _
      exact set_getElem?_self hidx _
  · intro k fid inv v ek ev rest hget hp hkn hcons hlen hnd
    have hstep := step_run_ok_cached prod s m i k fid inv v hget hp
    have hekrest : ¬ ek = k ∧ assocGet rest k = none := by
      have h2 := hkn
      rw [hcons] at h2
      simp only [assocGet] at h2
      by_cases hh : ek = k
      · rw [if_pos hh] at h2; exact absurd h2 (by simp)
      · rw [if_neg hh] at h2; exact ⟨hh, h2⟩
    have hcache : (step (Variant.cached m) prod s i).cache = rest ++ [(k, v)] := by
      rw [hstep]
      show (if (assocGet s.cache k).isSome then s.cache
            else (if m ≤ s.cache.length then s.cache.tail else s.cache) ++ [(k, v)]) =
          rest ++ [(k, v)]
      rw [hkn, hlen, hcons]
      simp
    have hrestek : assocGet rest ek = none := by
      rw [hcons] at hnd
      simp only [List.map_cons, List.nodup_cons] at hnd
      exact assocGet_none_of_not_mem hnd.1
    refine ⟨hcache, ?_, ?_, ?_⟩
    · rw [hcache, assocGet_append_none hrestek]
      simp [assocGet, if_neg (fun hh : k = ek => hekrest.1 hh.symm)]
    · rw [hcache, assocGet_append_none hekrest.2]
      simp [assocGet]
    · intro k2 h2ek h2k
      rw [hcache, hcons]
      rcases hr : assocGet rest k2 with _ | w
      · rw [assocGet_append_none hr]
        simp [assocGet, if_neg (fun hh : ek = k2 => h2ek hh.symm),
          if_neg (fun hh : k = k2 => h2k hh.symm), hr]
      · rw [assocGet_append_some hr]
        simp [assocGet, if_neg (fun hh : ek = k2 => h2ek hh.symm), hr]

/-- Witness for C2: a hit on key 2 in the scenario state promotes it to the
back; completing the registered call(1) in the full table evicts key 2. -/
theorem c2_lru_witness :
    ((step (Variant.cached 2) prodK lruScenario 4).hits = lruScenario.hits + 1 ∧
     (step (Variant.cached 2) prodK lruScenario 4).cache.getLast? = some (2, 102)) ∧
    ((step (Variant.cached 2) prodK
        (step (Variant.cached 2) prodK lruScenario 3) 3).cache = [(3, 103)] ++ [(1, 101)] ∧
     assocGet (step (Variant.cached 2) prodK
        (step (Variant.cached 2) prodK lruScenario 3) 3).cache 2 = none) := by
  have h1 := (c2_lru_eviction 2 prodK lruScenario 4).1 2 102 (by decide) (by decide)
  have h2 := (c2_lru_eviction 2 prodK
    (step (Variant.cached 2) prodK lruScenario 3) 3).2.1 1 3 3 101 2 102 [(3, 103)]
    (by decide) (by decide) (by decide) (by decide) (by decide) (by decide)
  exact ⟨⟨h1.1, h1.2.1⟩, ⟨h2.1, h2.2.1⟩⟩

/-! ## C3: producer failures are propagated, never cached -/

/-- C3: when the producer invocation raises, the identical error is returned
to the invoking caller, the result table and both counters are untouched by
the completion (the single miss was counted at registration), and the
in-flight entry for the key is removed; concretely, with a producer that
always raises, two sequential identical calls both invoke the producer and
both receive the error, with one miss counted per call and nothing ever
stored. -/
theorem c3_error_path (var : Variant) (hvar : okVariant var)
    (prod : Nat → Nat → Outcome) (s : Sys) (i k fid inv e : Nat)
    (htask : s.tasks[i]? = some (TaskSt.runningProd k fid inv))
    (herr : prod k inv = Outcome.err e) :
    ((step var prod s i).cache = s.cache ∧
     (step var prod s i).hits = s.hits ∧
     (step var prod s i).misses = s.misses ∧
     (step var prod s i).tasks[i]? = some (TaskSt.done (Outcome.err e)) ∧
     (assocGet s.inFlight k = some fid →
       assocGet (step var prod s i).inFlight k = none)) ∧
    ((run (Variant.cached 2) prodE (initSysKeys [1, 1]) [0, 0]).misses = 1 ∧
     (run (Variant.cached 2) prodE (initSysKeys [1, 1]) [0, 0]).prodCount = 1 ∧
     (run (Variant.cached 2) prodE (initSysKeys [1, 1]) [0, 0]).cache = [] ∧
     (run (Variant.cached 2) prodE (initSysKeys [1, 1]) [0, 0]).inFlight = [] ∧
     (run (Variant.cached 2) prodE (initSysKeys [1, 1]) [0, 0]).tasks[0]? =
       some (TaskSt.done (Outcome.err 7)) ∧
     (run (Variant.cached 2) prodE (initSysKeys [1, 1]) [0, 0, 1, 1]).misses = 2 ∧
     (run (Variant.cached 2) prodE (initSysKeys [1, 1]) [0, 0, 1, 1]).prodCount = 2 ∧
     (run (Variant.cached 2) prodE (initSysKeys [1, 1]) [0, 0, 1, 1]).cache = [] ∧
     (run (Variant.cached 2) prodE (initSysKeys [1, 1]) [0, 0, 1, 1]).tasks[1]? =
       some (TaskSt.done (Outcome.err 7))) := by
  have hidx : i < s.tasks.length := (List.getElem?_eq_some.mp htask).1
  rw [step_run_err var hvar prod s i k fid inv e htask herr]
  refine ⟨⟨rfl, rfl, rfl, set_getElem?_self hidx _, ?_⟩, by decide⟩
  intro hf
  show assocGet (if assocGet s.inFlight k = some fid then assocPop s.inFlight k
      else s.inFlight) k = none
  rw [if_pos hf]
  exact assocGet_pop_self _ _

/-- Witness for C3: the first failing call of the concrete scenario, at its
completion step. -/
theorem c3_error_path_witness :
    (step (Variant.cached 2) prodE
        (step (Variant.cached 2) prodE (initSysKeys [1, 1]) 0) 0).cache =
      (step (Variant.cached 2) prodE (initSysKeys [1, 1]) 0).cache ∧
    (step (Variant.cached 2) prodE
        (step (Variant.cached 2) prodE (initSysKeys [1, 1]) 0) 0).misses =
      (step (Variant.cached 2) prodE (initSysKeys [1, 1]) 0).misses ∧
    assocGet (step (Variant.cached 2) prodE
        (step (Variant.cached 2) prodE (initSysKeys [1, 1]) 0) 0).inFlight 1 = none := by
  have h := c3_error_path (Variant.cached 2) (by decide) prodE
    (step (Variant.cached 2) prodE (initSysKeys [1, 1]) 0) 0 1 0 0 7 (by decide) (by decide)
  exact ⟨h.1.1, h.1.2.2.1, h.1.2.2.2.2 (by decide)⟩

/-! ## C8: joining callers leave the counters untouched -/

/-- C8: a caller that misses the table but finds an in-flight entry joins it,
leaving the hit counter, the miss counter and the invocation count unchanged;
a caller awaiting a future never changes the counters; only the caller that
registers the in-flight entry counts a miss, exactly one, and it is the one
that invokes the producer. -/
theorem c8_joiner_counters (var : Variant) (hvar : okVariant var)
    (prod : Nat → Nat → Outcome) (s : Sys) (i : Nat) :
    (∀ k fid, s.tasks[i]? = some (TaskSt.start k) → assocGet s.cache k = none →
      assocGet s.inFlight k = some fid →
      (step var prod s i).hits = s.hits ∧ (step var prod s i).misses = s.misses ∧
      (step var prod s i).prodCount = s.prodCount ∧
      (step var prod s i).tasks[i]? = some (TaskSt.awaitingFut fid)) ∧
    (∀ fid, s.tasks[i]? = some (TaskSt.awaitingFut fid) →
      (step var prod s i).hits = s.hits ∧ (step var prod s i).misses = s.misses ∧
      (step var prod s i).prodCount = s.prodCount) ∧
    (∀ k, s.tasks[i]? = some (TaskSt.start k) → assocGet s.cache k = none →
      assocGet s.inFlight k = none →
      (step var prod s i).misses = s.misses + 1 ∧ (step var prod s i).hits = s.hits ∧
      (step var prod s i).prodCount = s.prodCount + 1 ∧
      (step var prod s i).tasks[i]? =
        some (TaskSt.runningProd k s.nextFut s.prodCount)) := by
  refine ⟨?_, ?_, ?_⟩
  · intro k fid hget hc hf
    have hidx : i < s.tasks.length := (List.getElem?_eq_some.mp hget).1
    rw [step_join var hvar prod s i k fid hget hc hf]
    exact ⟨rfl, rfl, rfl, set_getElem?_self hidx _⟩
  · intro fid hget
    rcases hf : assocGet s.futs fid with _ | fs
    · rw [step_await_none var prod s i fid hget hf]; exact ⟨rfl, rfl, rfl⟩
    · rcases fs with _ | v | e
      · rw [step_await_pending var prod s i fid hget hf]; exact ⟨rfl, rfl, rfl⟩
      · rw [step_await_resolved var prod s i fid v hget hf]; exact ⟨rfl, rfl, rfl⟩
      · rw [step_await_failed var prod s i fid e hget hf]; exact ⟨rfl, rfl, rfl⟩
  · intro k hget hc hf
    have hidx : i < s.tasks.length := (List.getElem?_eq_some.mp hget).1
    rw [step_register var hvar prod s i k hget hc hf]
    exact ⟨rfl, rfl, rfl, set_getElem?_self hidx _⟩

/-- Witness for C8: with two concurrent callers for key 5, the first caller
registers (one miss), the second joins (counters unchanged). -/
theorem c8_joiner_witness :
    ((step (Variant.cached 2) prodId (step (Variant.cached 2) prodId (initSys 2 5) 0) 1).hits =
       (step (Variant.cached 2) prodId (initSys 2 5) 0).hits ∧
     (step (Variant.cached 2) prodId (step (Variant.cached 2) prodId (initSys 2 5) 0) 1).misses =
       (step (Variant.cached 2) prodId (initSys 2 5) 0).misses) ∧
    (step (Variant.cached 2) prodId (initSys 2 5) 0).misses = (initSys 2 5).misses + 1 := by
  have hjoin := (c8_joiner_counters (Variant.cached 2) (by decide) prodId
    (step (Variant.cached 2) prodId (initSys 2 5) 0) 1).1 5 0 (by decide) (by decide) (by decide)
  have hreg := (c8_joiner_counters (Variant.cached 2) (by decide) prodId
    (initSys 2 5) 0).2.2 5 (by decide) (by decide) (by decide)
  exact ⟨⟨hjoin.1, hjoin.2.1⟩, hreg.1⟩

/-! ## C9: discard removes cached state only -/

theorem cacheDiscard_eq (var : Variant) (hvar : okVariant var) (s : Sys) (k : Nat) :
    cacheDiscard var s k = { s with cache := assocPop s.cache k } := by
  cases var with
  | uncached => exact hvar.elim
  | memoized => rfl
  | cached m => rfl

/-- State with a producer invocation for key 5 in flight and a second caller
still at its prologue (two concurrent callers, only the first scheduled). -/
def pendingJoinState : Sys := run (Variant.cached 2) prodK (initSysKeys [5, 5]) [0]

/-- C9 counterexample: with an in-flight entry for key 5, `cache_discard(5)`
followed immediately by a call with the same arguments does not invoke the
producer — the call joins the pending entry and the invocation count stays
at 1 — refuting "always invokes the producer". -/
theorem c9_discard_cex :
    pendingJoinState.prodCount = 1 ∧
    (step (Variant.cached 2) prodK
      (cacheDiscard (Variant.cached 2) pendingJoinState 5) 1).prodCount = 1 ∧
    (step (Variant.cached 2) prodK
      (cacheDiscard (Variant.cached 2) pendingJoinState 5) 1).tasks[1]? =
      some (TaskSt.awaitingFut 0) := by decide

/-- C9 (amended): `cache_discard` removes only the cached entry for the
recomputed key — in-flight entries, futures, counters and callers are
untouched, and every other key keeps its entry; a call immediately after the
discard never returns a cached hit: with no in-flight entry for the key it
registers and invokes the producer, and with an in-flight entry it joins that
pending invocation instead of invoking the producer. -/
theorem c9_discard (var : Variant) (hvar : okVariant var)
    (prod : Nat → Nat → Outcome) (s : Sys) (k i : Nat) :
    ((cacheDiscard var s k).inFlight = s.inFlight ∧
     (cacheDiscard var s k).futs = s.futs ∧
     (cacheDiscard var s k).hits = s.hits ∧
     (cacheDiscard var s k).misses = s.misses ∧
     (cacheDiscard var s k).prodCount = s.prodCount ∧
     (cacheDiscard var s k).tasks = s.tasks ∧
     assocGet (cacheDiscard var s k).cache k = none ∧
     (∀ k2, k2 ≠ k → assocGet (cacheDiscard var s k).cache k2 = assocGet s.cache k2)) ∧
    (s.tasks[i]? = some (TaskSt.start k) → assocGet s.inFlight k = none →
      (step var prod (cacheDiscard var s k) i).prodCount = s.prodCount + 1 ∧
      (step var prod (cacheDiscard var s k) i).misses = s.misses + 1 ∧
      (step var prod (cacheDiscard var s k) i).tasks[i]? =
        some (TaskSt.runningProd k s.nextFut s.prodCount)) ∧
    (∀ fid, s.tasks[i]? = some (TaskSt.start k) → assocGet s.inFlight k = some fid →
      (step var prod (cacheDiscard var s k) i).prodCount = s.prodCount ∧
      (step var prod (cacheDiscard var s k) i).misses = s.misses ∧
      (step var prod (cacheDiscard var s k) i).tasks[i]? =
        some (TaskSt.awaitingFut fid)) := by
  rw [cacheDiscard_eq var hvar s k]
  refine ⟨⟨rfl, rfl, rfl, rfl, rfl, rfl, assocGet_pop_self _ _,
    fun k2 h2 => assocGet_pop_ne _ h2⟩, ?_, ?_⟩
  · intro hget hif
    have hidx : i < s.tasks.length := (List.getElem?_eq_some.mp hget).1
    rw [step_register var hvar prod { s with cache := assocPop s.cache k } i k hget
      (assocGet_pop_self s.cache k) hif]
    exact ⟨rfl, rfl, set_getElem?_self hidx _⟩
  · intro fid hget hif
    have hidx : i < s.tasks.length := (List.getElem?_eq_some.mp hget).1
    rw [step_join var hvar prod { s with cache := assocPop s.cache k } i k fid hget
      (assocGet_pop_self s.cache k) hif]
    exact ⟨rfl, rfl, set_getElem?_self hidx _⟩

/-- Witness for C9 (amended): discarding cached key 2 from the scenario state
and calling it again re-invokes the producer; discarding while key 5 is in
flight leaves the pending entry joinable. -/
theorem c9_discard_witness :
    assocGet (cacheDiscard (Variant.cached 2) lruScenario 2).cache 2 = none ∧
    (step (Variant.cached 2) prodK
      (cacheDiscard (Variant.cached 2) lruScenario 2) 4).prodCount =
      lruScenario.prodCount + 1 ∧
    (step (Variant.cached 2) prodK
      (cacheDiscard (Variant.cached 2) pendingJoinState 5) 1).misses =
      pendingJoinState.misses := by
  have h := c9_discard (Variant.cached 2) (by decide) prodK lruScenario 2 4
  have h2 := c9_discard (Variant.cached 2) (by decide) prodK pendingJoinState 5 1
  exact ⟨h.1.2.2.2.2.2.2.1, (h.2.1 (by decide) (by decide)).1,
    (h2.2.2 0 (by decide) (by decide)).2.1⟩

/-! ## C10: the bounded table never exceeds its capacity -/

/-- C10: for a bounded cache of positive capacity `m`, the result table never
holds more than `m` entries: the initial table is empty, and every operation —
any caller step (hit, join, registration, completion, wake-up),
`cache_discard` and `cache_clear` — preserves `length ≤ m`, because an
insertion into a full table is preceded by the eviction of the
least-recently-used entry. -/
theorem c10_size_invariant (m : Nat) (hm : 1 ≤ m) (prod : Nat → Nat → Outcome)
    (s : Sys) (i k : Nat) (hlen : s.cache.length ≤ m) :
    (∀ ks, (initSysKeys ks).cache.length ≤ m) ∧
    (step (Variant.cached m) prod s i).cache.length ≤ m ∧
    (cacheDiscard (Variant.cached m) s k).cache.length ≤ m ∧
    (cacheClear (Variant.cached m) s).cache.length = 0 := by
  have hok : okVariant (Variant.cached m) := hm
  refine ⟨fun ks => by simp [initSysKeys], ?_, ?_, rfl⟩
  · rcases hget : s.tasks[i]? with _ | t
    · rw [step_oob _ _ _ _ hget]; exact hlen
    rcases t with k2 | fid | ⟨k2, fid, inv⟩ | r
    · rcases hc : assocGet s.cache k2 with _ | v
      · rcases hf : assocGet s.inFlight k2 with _ | fid2
        · rw [step_register _ hok _ _ _ _ hget hc hf]; exact hlen
        · rw [step_join _ hok _ _ _ _ _ hget hc hf]; exact hlen
      · rw [step_hit_cached prod s m i k2 v hget hc]
        show (moveToEnd s.cache k2).length ≤ m
        rw [moveToEnd, hc]
        have hpl := assocPop_length_lt hc
        simp only [List.length_append, List.length_cons, List.length_nil]
        omega
    · rcases hf : assocGet s.futs fid with _ | fs
      · rw [step_await_none _ _ _ _ _ hget hf]; exact hlen
      · rcases fs with _ | v | e
        · rw [step_await_pending _ _ _ _ _ hget hf]; exact hlen
        · rw [step_await_resolved _ _ _ _ _ _ hget hf]; exact hlen
        · rw [step_await_failed _ _ _ _ _ _ hget hf]; exact hlen
    · rcases hp : prod k2 inv with v | e
      · rw [step_run_ok_cached prod s m i k2 fid inv v hget hp]
        show (if (assocGet s.cache k2).isSome then s.cache
              else (if m ≤ s.cache.length then s.cache.tail else s.cache)
                ++ [(k2, v)]).length ≤ m
        rcases hc : assocGet s.cache k2 with _ | v0
        · simp only [hc, Option.isSome_none, Bool.false_eq_true, if_false]
          by_cases hfull : m ≤ s.cache.length
          · rw [if_pos hfull]
            simp only [List.length_append, List.length_tail, List.length_cons,
              List.length_nil]
            omega
          · rw [if_neg hfull]
            simp only [List.length_append, List.length_cons, List.length_nil]
            omega
        · simp only [hc, Option.isSome_some, if_true]
          exact hlen
      · rw [step_run_err _ hok prod s i k2 fid inv e hget hp]
        exact hlen
    · rw [step_done _ _ _ _ r hget]; exact hlen
  · rw [cacheDiscard_eq _ hok s k]
    exact Nat.le_trans (assocPop_length_le s.cache k) hlen

/-- Witness for C10 at the capacity-2 scenario state. -/
theorem c10_size_witness :
    lruScenario.cache.length ≤ 2 ∧
    (step (Variant.cached 2) prodK lruScenario 3).cache.length ≤ 2 ∧
    (cacheDiscard (Variant.cached 2) lruScenario 2).cache.length ≤ 2 ∧
    (cacheClear (Variant.cached 2) lruScenario).cache.length = 0 := by
  have h := c10_size_invariant 2 (by decide) prodK lruScenario 3 2 (by decide)
  exact ⟨by decide, h.2.1, h.2.2.1, h.2.2.2⟩

/-! ## C4: default capacity versus explicit none -/

/-- C4 counterexample: constructing with the capacity argument omitted uses
the declared default `128` and yields the bounded variant reporting maxsize
128 — not the unbounded wrapper that an explicit capacity of none yields,
whose reported maxsize is the unbounded marker. -/
theorem c4_default_cex :
    asyncLruCacheDefault = Except.ok (Variant.cached 128) ∧
    asyncLruCache MaxsizeArg.noneArg = Except.ok Variant.memoized ∧
    Variant.cached 128 ≠ Variant.memoized ∧
    (cacheInfo (Variant.cached 128) (initSysKeys [])).maxsize = some 128 ∧
    (cacheInfo Variant.memoized (initSysKeys [])).maxsize = none := by decide

/-- C4 (amended): an explicit capacity of none yields the unbounded
memoize-forever wrapper — no cached entry is ever evicted by any step and the
reported maxsize is the unbounded marker — while the capacity argument
omitted falls back to the declared default 128 and yields a bounded cache
reporting maxsize 128. -/
theorem c4_unbounded (prod : Nat → Nat → Outcome) (s : Sys) (i k v : Nat)
    (h : assocGet s.cache k = some v) :
    asyncLruCache MaxsizeArg.noneArg = Except.ok Variant.memoized ∧
    (∃ v2, assocGet (step Variant.memoized prod s i).cache k = some v2) ∧
    (cacheInfo Variant.memoized s).maxsize = none ∧
    asyncLruCacheDefault = Except.ok (Variant.cached 128) ∧
    (cacheInfo (Variant.cached 128) s).maxsize = some 128 := by
  refine ⟨rfl, ?_, rfl, rfl, rfl⟩
  rcases hget : s.tasks[i]? with _ | t
  · rw [step_oob _ _ _ _ hget]; exact ⟨v, h⟩
  rcases t with k2 | fid | ⟨k2, fid, inv⟩ | r
  · rcases hc : assocGet s.cache k2 with _ | v0
    · rcases hf : assocGet s.inFlight k2 with _ | fid2
      · rw [step_register Variant.memoized trivial prod s i k2 hget hc hf]; exact ⟨v, h⟩
      · rw [step_join Variant.memoized trivial prod s i k2 fid2 hget hc hf]; exact ⟨v, h⟩
    · rw [step_hit_memoized prod s i k2 v0 hget hc]; exact ⟨v, h⟩
  · rcases hf : assocGet s.futs fid with _ | fs
    · rw [step_await_none _ _ _ _ _ hget hf]; exact ⟨v, h⟩
    · rcases fs with _ | v1 | e
      · rw [step_await_pending _ _ _ _ _ hget hf]; exact ⟨v, h⟩
      · rw [step_await_resolved _ _ _ _ _ _ hget hf]; exact ⟨v, h⟩
      · rw [step_await_failed _ _ _ _ _ _ hget hf]; exact ⟨v, h⟩
  · rcases hp : prod k2 inv with v1 | e
    · rw [step_run_ok_memoized prod s i k2 fid inv v1 hget hp]
      show ∃ v2, assocGet (assocSet s.cache k2 v1) k = some v2
      exact assocGet_set_some h k2 v1
    · rw [step_run_err Variant.memoized trivial prod s i k2 fid inv e hget hp]
      exact ⟨v, h⟩
  · rw [step_done _ _ _ _ r hget]; exact ⟨v, h⟩

/-- Witness for C4 (amended): in an unbounded wrapper holding keys 1 and 2,
key 1 survives any further step. -/
theorem c4_unbounded_witness :
    asyncLruCache MaxsizeArg.noneArg = Except.ok Variant.memoized ∧
    (∃ v2, assocGet (step Variant.memoized prodK
      (run Variant.memoized prodK (initSysKeys [1, 2]) [0, 0, 1, 1]) 0).cache 1 =
      some v2) :=
  ⟨(c4_unbounded prodK (run Variant.memoized prodK (initSysKeys [1, 2]) [0, 0, 1, 1])
      0 1 101 (by decide)).1,
   (c4_unbounded prodK (run Variant.memoized prodK (initSysKeys [1, 2]) [0, 0, 1, 1])
      0 1 101 (by decide)).2.1⟩

/-! ## C6: invalid capacity at construction -/

/-- C6 counterexample: a negative integer capacity does not fail at
construction — `maxsize = max(maxsize, 0)` clamps it to 0 and construction
succeeds, yielding the working pass-through wrapper. -/
theorem c6_negative_cex :
    asyncLruCache (MaxsizeArg.intArg (-1)) = Except.ok Variant.uncached := by decide

/-- C6 (amended): construction rejects a capacity argument of invalid type —
anything that is neither an int, none, nor a callable raises a TypeError at
construction time — but a negative integer capacity is not rejected: every
negative integer is clamped to 0 and silently yields the working
pass-through wrapper. -/
theorem c6_invalid_capacity (n : Int) (hn : n < 0) :
    asyncLruCache MaxsizeArg.otherArg = Except.error asyncLruCacheErrMsg ∧
    asyncLruCache (MaxsizeArg.intArg n) = Except.ok Variant.uncached := by
  refine ⟨rfl, ?_⟩
  simp [asyncLruCache, max_eq_right (le_of_lt hn)]

/-- Witness for C6 (amended) at capacity -5. -/
theorem c6_invalid_capacity_witness :
    asyncLruCache MaxsizeArg.otherArg = Except.error asyncLruCacheErrMsg ∧
    asyncLruCache (MaxsizeArg.intArg (-5)) = Except.ok Variant.uncached :=
  c6_invalid_capacity (-5) (by decide)

/-! ## C5: keyword-argument order in key derivation -/

def nameA : String := "a"
def nameB : String := "b"

theorem kwdItems_inj : ∀ {kw1 kw2 : List (String × PyVal)},
    kwdItems kw1 = kwdItems kw2 → kw1 = kw2 := by
  intro kw1
  induction kw1 with
  | nil =>
    intro kw2 h
    cases kw2 with
    | nil => rfl
    | cons b t2 => obtain ⟨bk, bv⟩ := b; simp [kwdItems] at h
  | cons a t1 ih =>
    intro kw2 h
    obtain ⟨ak, av⟩ := a
    cases kw2 with
    | nil => simp [kwdItems] at h
    | cons b t2 =>
      obtain ⟨bk, bv⟩ := b
      simp only [kwdItems, List.cons.injEq, KeyElem.val.injEq, PyVal.vstr.injEq] at h
      obtain ⟨h1, h2, h3⟩ := h
      rw [h1, h2, ih h3]

theorem kwdItems_length (kw : List (String × PyVal)) :
    (kwdItems kw).length = 2 * kw.length := by
  induction kw with
  | nil => rfl
  | cons a t ih =>
    obtain ⟨ak, av⟩ := a
    simp only [kwdItems, List.length_cons, ih]
    omega

theorem finishKey_long (l : List KeyElem) (hl : 2 ≤ l.length) :
    finishKey l = PyKey.hashedSeq l := by
  match l with
  | [] => simp at hl
  | [x] => simp at hl
  | x :: y :: t => cases x <;> rfl

/-- C5 counterexample: the keyword orders (a=1, b=2) and (b=2, a=1) denote
the same mapping but produce different cache keys — `_make_key` iterates
`kwds.items()` in insertion order and never sorts by name. -/
theorem c5_kwargs_cex :
    makeKey [] [(nameA, PyVal.vint 1), (nameB, PyVal.vint 2)] false ≠
    makeKey [] [(nameB, PyVal.vint 2), (nameA, PyVal.vint 1)] false := by decide

/-- C5 (amended): key derivation is deterministic in the supplied argument
sequence, but keyword insertion order is significant: for the same positional
arguments and either typed flag, two distinct nonempty keyword sequences of
equal length (in particular, two distinct permutations of one mapping)
always produce different keys, so such calls occupy distinct cache entries
rather than sharing one. -/
theorem c5_kwargs_order (args : List PyVal) (kw1 kw2 : List (String × PyVal))
    (typed : Bool) (hlen : kw1.length = kw2.length) (hne : kw1 ≠ kw2)
    (h1 : kw1 ≠ []) :
    makeKey args kw1 typed ≠ makeKey args kw2 typed := by
  intro heq
  apply hne
  apply kwdItems_inj
  have h2 : kw2 ≠ [] := by
    intro hnil
    rw [hnil] at hlen
    exact h1 (List.length_eq_zero.mp hlen)
  have he1 : kw1.isEmpty = false := by
    cases kw1 with
    | nil => exact absurd rfl h1
    | cons a t => rfl
  have he2 : kw2.isEmpty = false := by
    cases kw2 with
    | nil => exact absurd rfl h2
    | cons a t => rfl
  have hil : (kwdItems kw1).length = (kwdItems kw2).length := by
    rw [kwdItems_length, kwdItems_length, hlen]
  have hlong1 : 2 ≤ (args.map KeyElem.val ++ KeyElem.kwdMark :: kwdItems kw1).length := by
    have : 1 ≤ kw1.length := List.length_pos.mpr h1
    simp [kwdItems_length]
    omega
  have hlong2 : 2 ≤ (args.map KeyElem.val ++ KeyElem.kwdMark :: kwdItems kw2).length := by
    have : 1 ≤ kw2.length := List.length_pos.mpr h2
    simp [kwdItems_length]
    omega
  cases typed with
  | false =>
    simp only [makeKey, he1, he2, Bool.false_eq_true, if_false] at heq
    rw [finishKey_long _ hlong1, finishKey_long _ hlong2, PyKey.hashedSeq.injEq] at heq
    have := List.append_cancel_left heq
    exact (List.cons.injEq _ _ _ _).mp this |>.2
  | true =>
    simp only [makeKey, he1, he2, Bool.false_eq_true, if_false, if_true,
      PyKey.hashedSeq.injEq] at heq
    have hfst := (List.append_inj heq (by simp [hil])).1
    have hsnd := (List.append_inj hfst (by simp [hil])).1
    have := List.append_cancel_left hsnd
    exact (List.cons.injEq _ _ _ _).mp this |>.2

/-- Witness for C5 (amended) with a positional argument and typed keys. -/
theorem c5_kwargs_witness :
    makeKey [PyVal.vint 0] [(nameA, PyVal.vint 1), (nameB, PyVal.vint 2)] true ≠
    makeKey [PyVal.vint 0] [(nameB, PyVal.vint 2), (nameA, PyVal.vint 1)] true :=
  c5_kwargs_order [PyVal.vint 0] [(nameA, PyVal.vint 1), (nameB, PyVal.vint 2)]
    [(nameB, PyVal.vint 2), (nameA, PyVal.vint 1)] true (by decide) (by decide) (by decide)

end AsyncFunctools
